import Mathlib

/-!
# CD4066 analog switch gate (netlist device `CD4066_GATE`)

A shallow embedding of `src/lib/netlist/devices/nld_4066.cpp`: the reset and
update bodies of the `CD4066_GATE` netlist device, which models one bilateral
CMOS switch as a resistor `m_R` whose value is recomputed from the control
voltage and the supply rails.

Numbers.  The source computes in `nl_double`.  The embedding keeps the shape
of IEEE-754 values (finite, the two infinities, NaN) so that division by a
zero supply span and comparisons against NaN behave as they do in the
source, but finite values are exact rationals: rounding, overflow and the
sign of zero are not modelled.  The literals `0.45`, `0.55`, `5.0`, `1.0`,
`-1.0` and `0.0` are the rationals they denote.
-/

namespace netlist

/-- Values of the source type `nl_double`: a finite value (an exact rational
here), positive infinity, negative infinity, or NaN. -/
inductive nl_double where
  | fin (q : ℚ)
  | pinf
  | ninf
  | nan
deriving DecidableEq

namespace nl_double

/-- Subtraction `a - b` with the IEEE-754 rules for infinities and NaN. -/
def sub : nl_double → nl_double → nl_double
  | fin a, fin b => fin (a - b)
  | nan, _ => nan
  | _, nan => nan
  | pinf, pinf => nan
  | ninf, ninf => nan
  | pinf, _ => pinf
  | ninf, _ => ninf
  | fin _, pinf => ninf
  | fin _, ninf => pinf

/-- Infinity carrying the sign of the rational `s`; NaN when `s` is zero. -/
def infOfSign (s : ℚ) : nl_double :=
  if 0 < s then pinf else if s < 0 then ninf else nan

/-- Multiplication `a * b` with the IEEE-754 rules for infinities and NaN. -/
def mul : nl_double → nl_double → nl_double
  | fin a, fin b => fin (a * b)
  | nan, _ => nan
  | _, nan => nan
  | fin a, pinf => infOfSign a
  | fin a, ninf => infOfSign (-a)
  | pinf, fin b => infOfSign b
  | ninf, fin b => infOfSign (-b)
  | pinf, pinf => pinf
  | ninf, ninf => pinf
  | pinf, ninf => ninf
  | ninf, pinf => ninf

/-- Division `a / b` with the IEEE-754 rules: a finite non-zero value over
zero is an infinity of the sign of the numerator, zero over zero is NaN, a
finite value over an infinity is zero, infinity over infinity is NaN.  The
zero divisor is taken to be `+0`, which is what `x - x` yields. -/
def div : nl_double → nl_double → nl_double
  | fin a, fin b => if b = 0 then infOfSign a else fin (a / b)
  | nan, _ => nan
  | _, nan => nan
  | fin _, pinf => fin 0
  | fin _, ninf => fin 0
  | pinf, fin b => if b < 0 then ninf else pinf
  | ninf, fin b => if b < 0 then pinf else ninf
  | pinf, pinf => nan
  | pinf, ninf => nan
  | ninf, pinf => nan
  | ninf, ninf => nan

/-- Comparison `a < b`; false as soon as one side is NaN. -/
def lt : nl_double → nl_double → Bool
  | fin a, fin b => decide (a < b)
  | nan, _ => false
  | _, nan => false
  | pinf, _ => false
  | ninf, ninf => false
  | ninf, _ => true
  | fin _, pinf => true
  | fin _, ninf => false

/-- Comparison `a > b`, that is `b < a`. -/
def gt (a b : nl_double) : Bool := lt b a

end nl_double

open nl_double

/-- Simulated time in nanoseconds, the argument type of
`schedule_solve_after`. -/
abbrev netlist_time := ℕ

/-- The source macro `NLTIME_FROM_NS(n)`: a time of `n` nanoseconds. -/
def NLTIME_FROM_NS (n : ℕ) : netlist_time := n

/-- Calls the gate makes on its resistor and, through terminal `m_P`, on the
solver, in the order they are made. -/
inductive Call where
  | update
  | set_R (R : nl_double)
  | schedule_solve_after (t : netlist_time)
deriving DecidableEq

/-- The resistor sub-device `m_R` as the gate sees it: the resistance last
written, and the record of the calls made on it. -/
structure R_base where
  R : nl_double
  calls : List Call
deriving DecidableEq

namespace R_base

/-- Modelled from the spec: `m_R.update()` (declared in `nlid_twoterm.h`, not
part of the sources at hand) synchronises the branch with the network; it
does not change the stored resistance, and is recorded as a call. -/
def update (r : R_base) : R_base :=
  { r with calls := r.calls ++ [Call.update] }

/-- Modelled from the spec: `m_R.set_R(R)` (declared in `nlid_twoterm.h`, not
part of the sources at hand) stores `R` as the value of the resistor, and is
recorded as a call. -/
def set_R (r : R_base) (R : nl_double) : R_base :=
  { R := R, calls := r.calls ++ [Call.set_R R] }

/-- Modelled from the spec: `m_R.m_P.schedule_solve_after(t)` (declared in
the netlist core, not part of the sources at hand) asks the solver to
re-solve the network `t` later; it does not change the stored resistance,
and is recorded as a call. -/
def schedule_solve_after (r : R_base) (t : netlist_time) : R_base :=
  { r with calls := r.calls ++ [Call.schedule_solve_after t] }

end R_base

/-- What the gate reads on a call: the supply rails `m_supply.vdd()` and
`m_supply.vss()`, the control input `m_control()`, the parameter
`m_base_r()` and the solver setting `exec().gmin()`. -/
structure Inputs where
  vdd : nl_double
  vss : nl_double
  control : nl_double
  base_r : nl_double
  gmin : nl_double

/-- The device `CD4066_GATE`: its mutable part is the resistor `m_R`. -/
structure CD4066_GATE where
  m_R : R_base
deriving DecidableEq

namespace CD4066_GATE

/-- The local `rON` of the update body:
`m_base_r() * NL_FCONST(5.0) / sup`. -/
def rON (base_r sup : nl_double) : nl_double :=
  div (mul base_r (fin 5)) sup

/-- The body of `NETLIB_RESET(CD4066_GATE)`:
`m_R.set_R(NL_FCONST(1.0) / exec().gmin())`. -/
def reset (gmin : nl_double) (d : CD4066_GATE) : CD4066_GATE :=
  { m_R := d.m_R.set_R (div (fin 1) gmin) }

/-- The body of `NETLIB_UPDATE(CD4066_GATE)`, line by line.  The source local
`in` is called `inp` here.  The inner test of the source is the constant
`(1)`; both of its branches are kept. -/
def update (i : Inputs) (d : CD4066_GATE) : CD4066_GATE :=
  let sup := sub i.vdd i.vss
  let low := mul (fin (45 / 100)) sup
  let high := mul (fin (55 / 100)) sup
  let inp := sub i.control i.vss
  let rON := rON i.base_r sup
  let R := fin (-1)
  let R := if lt inp low then div (fin 1) i.gmin
           else if gt inp high then rON
           else R
  if gt R (fin 0) then
    if (1 : Int) ≠ 0 then
      { m_R := ((d.m_R.update).set_R R).schedule_solve_after (NLTIME_FROM_NS 1) }
    else
      { m_R := (d.m_R.set_R R).update }
  else d

/-- The value of the local `R` of the update body when the test `R > 0` is
reached: `1 / gmin` when `in < low`, `rON` when `in > high`, and the initial
`-1.0` otherwise. -/
def target (i : Inputs) : nl_double :=
  if lt (sub i.control i.vss) (mul (fin (45 / 100)) (sub i.vdd i.vss)) then
    div (fin 1) i.gmin
  else if gt (sub i.control i.vss) (mul (fin (55 / 100)) (sub i.vdd i.vss)) then
    rON i.base_r (sub i.vdd i.vss)
  else fin (-1)

/-- The gate after the reachable branch of the update body has applied `R`:
`m_R.update()`, `m_R.set_R(R)`, `m_R.m_P.schedule_solve_after(1 ns)`. -/
def applied (R : nl_double) (d : CD4066_GATE) : CD4066_GATE :=
  { m_R := { R := R,
             calls := d.m_R.calls ++
               [Call.update, Call.set_R R, Call.schedule_solve_after 1] } }

/-- The gate after `reset` has been called `n` times under the same `gmin`. -/
def resetN (gmin : nl_double) : ℕ → CD4066_GATE → CD4066_GATE
  | 0, d => d
  | n + 1, d => resetN gmin n (reset gmin d)

/-- The gate after one `update` call per element of `is`, in order. -/
def run (is : List Inputs) (d : CD4066_GATE) : CD4066_GATE :=
  is.foldl (fun s i => update i s) d

/-- Inputs whose five readings are all finite. -/
def finInputs (vdd vss control base_r gmin : ℚ) : Inputs :=
  { vdd := fin vdd, vss := fin vss, control := fin control,
    base_r := fin base_r, gmin := fin gmin }

end CD4066_GATE

end netlist

namespace netlist
namespace CD4066_GATE
open nl_double

/-! ## The update body in closed form -/

theorem update_eq_target (i : Inputs) (d : CD4066_GATE) :
    update i d = if gt (target i) (fin 0) then applied (target i) d else d := by
  simp only [update, target, applied, R_base.update, R_base.set_R,
    R_base.schedule_solve_after, NLTIME_FROM_NS]
  split_ifs <;> simp_all

theorem target_fin (h l v : ℚ) (b g : nl_double) :
    target { vdd := fin h, vss := fin l, control := fin v, base_r := b, gmin := g } =
      if v - l < 45 / 100 * (h - l) then div (fin 1) g
      else if 55 / 100 * (h - l) < v - l then rON b (fin (h - l))
      else fin (-1) := by
  simp [target, sub, mul, lt, gt]

theorem gt_zero_inv (g : ℚ) (hg : 0 < g) : gt (div (fin 1) (fin g)) (fin 0) = true := by
  simp [div, gt, lt, hg.ne', hg]

theorem div_one_fin (g : ℚ) (hg : 0 < g) : div (fin 1) (fin g) = fin (1 / g) := by
  simp [div, hg.ne']

theorem rON_fin (b s : ℚ) (hs : s ≠ 0) : rON (fin b) (fin s) = fin (b * 5 / s) := by
  simp [rON, mul, div, hs]

theorem reset_R (g : nl_double) (d : CD4066_GATE) :
    (reset g d).m_R.R = div (fin 1) g := rfl

theorem resetN_succ_R (g : nl_double) (n : ℕ) (d : CD4066_GATE) :
    (resetN g (n + 1) d).m_R.R = div (fin 1) g := by
  induction n generalizing d with
  | zero => rfl
  | succ k ih => rw [resetN, ih]

/-- C4: the reset body sets the resistor value to exactly `1 / gmin`,
whatever the prior state, and `n ≥ 1` consecutive resets under the same
`gmin` leave the same resistor value as a single one, namely `1 / gmin`. -/
theorem C4_reset_idempotent (g : nl_double) (d : CD4066_GATE) (n : ℕ) (hn : 1 ≤ n) :
    (reset g d).m_R.R = div (fin 1) g ∧
    (resetN g n d).m_R.R = (reset g d).m_R.R ∧
    (resetN g n d).m_R.R = div (fin 1) g := by
  obtain ⟨k, rfl⟩ : ∃ k, n = k + 1 := ⟨n - 1, by omega⟩
  exact ⟨rfl, by rw [resetN_succ_R, reset_R], resetN_succ_R g k d⟩

/-- Witness of C4: three resets with `gmin = 1/1000` on a resistor holding
270 leave `1 / gmin`. -/
theorem C4_reset_idempotent_witness :
    1 ≤ 3 ∧
    (resetN (fin (1 / 1000)) 3 { m_R := { R := fin 270, calls := [] } }).m_R.R =
      div (fin 1) (fin (1 / 1000)) :=
  ⟨by decide,
   (C4_reset_idempotent (fin (1 / 1000)) { m_R := { R := fin 270, calls := [] } } 3
    (by decide)).2.2⟩

/-! ## C5: re-solve requests -/

theorem applied_calls (R : nl_double) (d : CD4066_GATE) :
    (applied R d).m_R.calls =
      d.m_R.calls ++ [Call.update, Call.set_R R, Call.schedule_solve_after 1] := rfl

theorem update_keeps_pos (i : Inputs) (d : CD4066_GATE)
    (hd : gt d.m_R.R (fin 0) = true) : gt (update i d).m_R.R (fin 0) = true := by
  rw [update_eq_target]
  split_ifs with hR
  · exact hR
  · exact hd

theorem run_keeps_pos (is : List Inputs) (d : CD4066_GATE)
    (hd : gt d.m_R.R (fin 0) = true) : gt (run is d).m_R.R (fin 0) = true := by
  induction is generalizing d with
  | nil => exact hd
  | cons i rest ih => exact ih (update i d) (update_keeps_pos i d hd)

theorem pos_shape (R : nl_double) (hR : gt R (fin 0) = true) :
    (∃ q : ℚ, 0 < q ∧ R = fin q) ∨ R = pinf := by
  cases R with
  | fin q => exact Or.inl ⟨q, by simpa [gt, lt] using hR, rfl⟩
  | pinf => exact Or.inr rfl
  | ninf => simp [gt, lt] at hR
  | nan => simp [gt, lt] at hR

/-- C6: after a reset under a positive `gmin`, followed by any finite sequence
of update calls with arbitrary rails, control voltages, base resistances (and
whatever `gmin` each update reads), the stored resistance compares strictly
greater than zero: it is a positive finite value or positive infinity, never
zero, negative or NaN. -/
theorem C6_resistance_positive (g0 : ℚ) (hg0 : 0 < g0) (is : List Inputs)
    (d : CD4066_GATE) :
    gt (run is (reset (fin g0) d)).m_R.R (fin 0) = true ∧
    ((∃ q : ℚ, 0 < q ∧ (run is (reset (fin g0) d)).m_R.R = fin q) ∨
      (run is (reset (fin g0) d)).m_R.R = pinf) := by
  have hpos := run_keeps_pos is (reset (fin g0) d) (gt_zero_inv g0 hg0)
  exact ⟨hpos, pos_shape _ hpos⟩

/-- Witness of C6: reset with `gmin = 1/1000`, then an update with reversed
rails and a negative base resistance, then one with zero span. -/
theorem C6_resistance_positive_witness :
    (0 : ℚ) < 1 / 1000 ∧
    gt (run [finInputs 0 5 4 (-270) (1 / 1000), finInputs 5 5 6 270 (1 / 1000)]
      (reset (fin (1 / 1000)) { m_R := { R := fin 0, calls := [] } })).m_R.R (fin 0) = true :=
  ⟨by norm_num,
   (C6_resistance_positive (1 / 1000) (by norm_num)
     [finInputs 0 5 4 (-270) (1 / 1000), finInputs 5 5 6 270 (1 / 1000)]
     { m_R := { R := fin 0, calls := [] } }).1⟩

/-! ## C7: zero supply span -/

/-- C9: for every input and prior state, the update body either makes no call
and leaves the gate as it was, or applies a target `R > 0` by making exactly
the calls `m_R.update()`, `m_R.set_R(R)`, `schedule_solve_after(1 ns)` in
that order; the calls of the other branch (`set_R(R)` then `update()`, no
scheduling) are never what it makes. -/
theorem C9_apply_order (i : Inputs) (d : CD4066_GATE) :
    (update i d = d ∨
      ∃ R, gt R (fin 0) = true ∧ (update i d).m_R.R = R ∧
        (update i d).m_R.calls = d.m_R.calls ++
          [Call.update, Call.set_R R, Call.schedule_solve_after (NLTIME_FROM_NS 1)]) ∧
    ∀ R, (update i d).m_R.calls ≠ d.m_R.calls ++ [Call.set_R R, Call.update] := by
  rw [update_eq_target]
  constructor
  · split_ifs with hR
    · exact Or.inr ⟨target i, hR, rfl, rfl⟩
    · exact Or.inl rfl
  · intro R hcalls
    have hlen := congrArg List.length hcalls
    split_ifs at hlen <;> simp [applied] at hlen

/-! ## C10: reversed rails never switch the gate on -/

theorem update_reversed (h l v b g : ℚ) (d : CD4066_GATE)
    (hrev : h < l) (hb : 0 < b) (hg : 0 < g) :
    update (finInputs h l v b g) d =
      if v - l < 45 / 100 * (h - l) then applied (fin (1 / g)) d else d := by
  have hs : h - l < 0 := sub_neg.mpr hrev
  rw [update_eq_target, finInputs, target_fin]
  by_cases hlow : v - l < 45 / 100 * (h - l)
  · rw [if_pos hlow, if_pos hlow, if_pos (gt_zero_inv g hg), div_one_fin g hg]
  · rw [if_neg hlow, if_neg hlow]
    have hneg : b * 5 / (h - l) < 0 := div_neg_of_pos_of_neg (by positivity) hs
    split_ifs with h1 h2 h3
    · rw [rON_fin b _ hs.ne] at h2
      simp [gt, lt, not_lt.mpr hneg.le] at h2
    · rfl
    · norm_num [gt, lt] at h3
    · rfl

/-- C10: with reversed rails (`high < low`), positive base resistance and
positive `gmin`, the resistor value after the update body is its prior value
or `1 / gmin`, and the calls the body makes never contain
`set_R(baseOnResistance * 5 / span)`: the negative on-resistance is not
written. -/
theorem C10_reversed_never_on (h l v b g : ℚ) (d : CD4066_GATE)
    (hrev : h < l) (hb : 0 < b) (hg : 0 < g) :
    ((update (finInputs h l v b g) d).m_R.R = d.m_R.R ∨
      (update (finInputs h l v b g) d).m_R.R = fin (1 / g)) ∧
    rON (fin b) (sub (fin h) (fin l)) = fin (b * 5 / (h - l)) ∧
    ∀ issued, (update (finInputs h l v b g) d).m_R.calls = d.m_R.calls ++ issued →
      Call.set_R (rON (fin b) (sub (fin h) (fin l))) ∉ issued := by
  have hs : h - l < 0 := sub_neg.mpr hrev
  have hneg : b * 5 / (h - l) < 0 := div_neg_of_pos_of_neg (by positivity) hs
  have hposg : 0 < 1 / g := by positivity
  have hr : rON (fin b) (sub (fin h) (fin l)) = fin (b * 5 / (h - l)) :=
    rON_fin b _ hs.ne
  rw [update_reversed h l v b g d hrev hb hg]
  refine ⟨?_, hr, ?_⟩
  · split_ifs
    · exact Or.inr rfl
    · exact Or.inl rfl
  · intro issued hcalls
    rw [hr]
    split_ifs at hcalls
    · rw [applied_calls] at hcalls
      have := List.append_cancel_left hcalls
      subst this
      have hne : b * 5 / (h - l) ≠ g⁻¹ := by
        rw [one_div] at hposg
        linarith
      simp [hne]
    · have : issued = [] := by
        have := congrArg List.length hcalls
        simpa using this
      simp [this]

/-- Witness of C10: rails 0 / 5, base 270, `gmin = 1/1000`, control 1 (relative
value 0.8): the resistor holding 7 receives `1 / gmin`, not `-270`. -/
theorem C10_reversed_never_on_witness :
    ((0 : ℚ) < 5 ∧ (0 : ℚ) < 270 ∧ (0 : ℚ) < 1 / 1000) ∧
    ((update (finInputs 0 5 1 270 (1 / 1000))
        { m_R := { R := fin 7, calls := [] } }).m_R.R = fin 7 ∨
      (update (finInputs 0 5 1 270 (1 / 1000))
        { m_R := { R := fin 7, calls := [] } }).m_R.R = fin (1 / (1 / 1000))) :=
  ⟨⟨by norm_num, by norm_num, by norm_num⟩,
   (C10_reversed_never_on 0 5 1 270 (1 / 1000) { m_R := { R := fin 7, calls := [] } }
     (by norm_num) (by norm_num) (by norm_num)).1⟩

/-! ## C11: the update body is idempotent and ignores the stored resistance -/

theorem update_twice_R (i : Inputs) (d : CD4066_GATE) :
    (update i (update i d)).m_R.R = (update i d).m_R.R := by
  rw [update_eq_target i (update i d), update_eq_target i d]
  by_cases hR : gt (target i) (fin 0) = true
  · rw [if_pos hR, if_pos hR]
    rfl
  · rw [if_neg hR, if_neg hR]

/-- C11: for all inputs (rails, control voltage, base resistance, `gmin`, NaN
and infinities included) and every prior state, two update calls in a row on
the same inputs leave the same resistor value as one call; and for any two
prior states the calls the body makes are the same: either none, both
resistors keeping their value, or the same three calls applying the same
target `R` to both. -/
theorem C11_update_idempotent (i : Inputs) (d d1 d2 : CD4066_GATE) :
    (update i (update i d)).m_R.R = (update i d).m_R.R ∧
    ∃ issued,
      (update i d1).m_R.calls = d1.m_R.calls ++ issued ∧
      (update i d2).m_R.calls = d2.m_R.calls ++ issued ∧
      ((issued = [] ∧ (update i d1).m_R.R = d1.m_R.R ∧
          (update i d2).m_R.R = d2.m_R.R) ∨
        ∃ R, issued = [Call.update, Call.set_R R,
                       Call.schedule_solve_after (NLTIME_FROM_NS 1)] ∧
          (update i d1).m_R.R = R ∧ (update i d2).m_R.R = R) := by
  refine ⟨update_twice_R i d, ?_⟩
  rw [update_eq_target i d1, update_eq_target i d2]
  by_cases hR : gt (target i) (fin 0) = true
  · rw [if_pos hR, if_pos hR]
    exact ⟨_, rfl, rfl, Or.inr ⟨target i, rfl, rfl, rfl⟩⟩
  · rw [if_neg hR, if_neg hR]
    exact ⟨[], by simp, by simp, Or.inl ⟨rfl, rfl, rfl⟩⟩

end CD4066_GATE
end netlist
